import Mathlib

/-!
# Verification of the SeriesAnalyzer script (`src/analysis.py`)

Shallow embedding of the Python script `analysis.py`:

* input lines are read in order; each is stripped and parsed with `float`
  (modelled by `parseLine`; numeric values are modelled as exact rationals `ℚ`,
  so accepted non-finite literals such as `inf`/`nan` are recorded by the
  grammar-level recogniser `pyFloatParse` but lie outside the `ℚ` value model);
* a running index routes values at even positions to `lefts` and at odd
  positions to `rights` (`readLoop`, embedding the `for` loop);
* min / `statistics.mean` / `statistics.median` / max (embedded from CPython's
  builtins and `statistics` module as `listMin`, `mean`, `median`, `listMax`;
  each returns `none` on the empty list, where Python raises, which the spec
  calls `EmptySequenceError`);
* the report: sixteen `logging.info` lines, emitted strictly in source order
  (`emitAll`); an exception while computing a statistic aborts the run keeping
  the lines already emitted.  An output line is modelled as its message label
  paired with the value (`logging` renders `INFO: <label>: <value>`; in the
  source the two `max` format strings additionally end in `"\n"`, a purely
  cosmetic detail dropped from the labels here).

The second script variant (the diff report) is not present under `src/`; it is
modelled from the spec where needed and marked as such.
-/

/-- Error kinds named by the spec: `ParseError` for an invalid numeric literal
(Python `ValueError` from `float`), `EmptySequenceError` for a statistic of an
empty sequence (Python `ValueError` from `min`/`max` or `StatisticsError`). -/
inductive Err where
  | parseError
  | emptySequenceError
deriving DecidableEq, Repr

/-- A non-finite value accepted by Python `float` (`inf`, `-inf`, `nan`) or a
finite value, modelled exactly as a rational. -/
inductive PyVal where
  | fin (q : ℚ)
  | inf
  | ninf
  | nan
deriving DecidableEq, Repr

/-- Numeric value of a decimal digit character. -/
def digitVal (c : Char) : Nat := c.toNat - 48

/-- Consume further digits of a Python digit group: decimal digits, with a
single underscore allowed only between two digits (Python literal syntax). -/
def digitsAux (acc : List Nat) : List Char → List Nat × List Char
  | [] => (acc, [])
  | [c] =>
    if c.isDigit then (acc ++ [digitVal c], []) else (acc, [c])
  | c :: c2 :: rest =>
    if c.isDigit then digitsAux (acc ++ [digitVal c]) (c2 :: rest)
    else if c = '_' && c2.isDigit then digitsAux (acc ++ [digitVal c2]) rest
    else (acc, c :: c2 :: rest)

/-- Consume a Python digit group (at least one digit, underscores only between
digits); `none` if the input does not start with a digit. -/
def digitGroup : List Char → Option (List Nat × List Char)
  | [] => none
  | c :: rest =>
    if c.isDigit then some (digitsAux [digitVal c] rest) else none

/-- Natural number denoted by a list of digit values (most significant first). -/
def natOfDigits (ds : List Nat) : Nat := ds.foldl (fun a d => 10 * a + d) 0

/-- Magnitude of a finite Python `float` literal (no sign):
`digits [. digits] [exponent]` or `. digits [exponent]`, underscores allowed
inside each digit group.  The denoted value is kept exact in `ℚ`. -/
def parseFinMag (cs : List Char) : Option ℚ :=
  let ipr : List Nat × List Char × Bool :=
    match digitGroup cs with
    | some (ds, r) => (ds, r, true)
    | none => ([], cs, false)
  let fpr : List Nat × List Char × Bool :=
    match ipr.2.1 with
    | '.' :: rest =>
      match digitGroup rest with
      | some (ds, r) => (ds, r, true)
      | none => ([], rest, false)
    | _ => ([], ipr.2.1, false)
  if ipr.2.2 || fpr.2.2 then
    let base : ℚ :=
      (natOfDigits ipr.1 : ℚ) + (natOfDigits fpr.1 : ℚ) / (10 : ℚ) ^ fpr.1.length
    match fpr.2.1 with
    | [] => some base
    | e :: rest =>
      if e = 'e' || e = 'E' then
        let sgnRest : Bool × List Char :=
          match rest with
          | '+' :: t => (false, t)
          | '-' :: t => (true, t)
          | _ => (false, rest)
        match digitGroup sgnRest.2 with
        | some (ds, []) =>
          let ex := natOfDigits ds
          some (if sgnRest.1 then base / (10 : ℚ) ^ ex else base * (10 : ℚ) ^ ex)
        | _ => none
      else none
  else none

/-- Python `float(s)` on an already-stripped character sequence: optional sign,
then `inf`/`infinity`/`nan` (case-insensitive) or a finite literal. -/
def pyFloatCore (cs : List Char) : Option PyVal :=
  let sb : Bool × List Char :=
    match cs with
    | '+' :: t => (false, t)
    | '-' :: t => (true, t)
    | _ => (false, cs)
  let low := sb.2.map Char.toLower
  if low = "inf".toList || low = "infinity".toList then
    some (if sb.1 then PyVal.ninf else PyVal.inf)
  else if low = "nan".toList then some PyVal.nan
  else
    match parseFinMag sb.2 with
    | some q => some (PyVal.fin (if sb.1 then -q else q))
    | none => none

/-- Python `float(s)` as a recogniser/evaluator on strings. -/
def pyFloatParse (s : String) : Option PyVal := pyFloatCore s.toList

/-- Python `line.strip()`: remove leading and trailing whitespace. -/
def pyStrip (cs : List Char) : List Char :=
  ((cs.dropWhile Char.isWhitespace).reverse.dropWhile Char.isWhitespace).reverse

/-- `float(line.strip())` restricted to the `ℚ` value model: `some q` when the
stripped line is a finite Python float literal of exact value `q`; `none`
otherwise (in particular for the non-finite literals `inf`/`nan`, which the
real `float` accepts — see `pyFloatParse` — but which have no rational value). -/
def parseLine (line : String) : Option ℚ :=
  match pyFloatCore (pyStrip line.toList) with
  | some (PyVal.fin q) => some q
  | _ => none

/-- Consume one or more decimal digits (no underscores); `none` if absent. -/
def stdDigitGroup (cs : List Char) : Option (List Char) :=
  if (cs.takeWhile Char.isDigit).isEmpty then none
  else some (cs.dropWhile Char.isDigit)

/-- Standard decimal floating-point syntax (spec §6): optional sign,
`digits [. digits]` or `. digits`, optional exponent — no underscores, no
`inf`/`nan`. -/
def stdFinAccepts (cs : List Char) : Bool :=
  let ir : List Char × Bool :=
    match stdDigitGroup cs with
    | some r => (r, true)
    | none => (cs, false)
  let fr : List Char × Bool :=
    match ir.1 with
    | '.' :: rest =>
      match stdDigitGroup rest with
      | some r => (r, true)
      | none => (rest, false)
    | _ => (ir.1, false)
  if ir.2 || fr.2 then
    match fr.1 with
    | [] => true
    | e :: rest =>
      (e = 'e' || e = 'E') &&
        (let rest2 : List Char :=
          match rest with
          | '+' :: t => t
          | '-' :: t => t
          | _ => rest
        match stdDigitGroup rest2 with
        | some [] => true
        | _ => false)
  else false

/-- A string is a standard decimal floating-point literal. -/
def standardDecimalAccepts (s : String) : Bool :=
  match s.toList with
  | '+' :: t => stdFinAccepts t
  | '-' :: t => stdFinAccepts t
  | cs => stdFinAccepts cs

/-- The read loop of `analysis.py`: parse every line in order; the first
failing line aborts the whole run with `ParseError`. -/
def parseLines : List String → Except Err (List ℚ)
  | [] => Except.ok []
  | line :: rest =>
    match parseLine line with
    | none => Except.error Err.parseError
    | some v =>
      match parseLines rest with
      | Except.error e => Except.error e
      | Except.ok vs => Except.ok (v :: vs)

/-- One iteration of the read loop body: state is `(i, lefts, rights)`;
`if i % 2 == 0: lefts.append(value) else: rights.append(value); i = i + 1`. -/
def loopStep (st : Nat × List ℚ × List ℚ) (v : ℚ) : Nat × List ℚ × List ℚ :=
  if st.1 % 2 = 0 then (st.1 + 1, st.2.1 ++ [v], st.2.2)
  else (st.1 + 1, st.2.1, st.2.2 ++ [v])

/-- The whole read loop, started from `i = 0`, `lefts = []`, `rights = []`. -/
def readLoop (vs : List ℚ) : Nat × List ℚ × List ℚ :=
  vs.foldl loopStep (0, [], [])

/-- The `lefts` list after the read loop. -/
def leftsOf (vs : List ℚ) : List ℚ := (readLoop vs).2.1

/-- The `rights` list after the read loop. -/
def rightsOf (vs : List ℚ) : List ℚ := (readLoop vs).2.2

/-- Python `min` over a list (left fold of binary `min` over the first
element); `none` on the empty list, where Python raises `ValueError`. -/
def listMin : List ℚ → Option ℚ
  | [] => none
  | a :: l => some (l.foldl min a)

/-- Python `max` over a list; `none` on the empty list. -/
def listMax : List ℚ → Option ℚ
  | [] => none
  | a :: l => some (l.foldl max a)

/-- `statistics.mean`: exact sum divided by the count (CPython accumulates
exactly via `Fraction`, raising `StatisticsError` when `n < 1`, modelled as
`none`). -/
def mean (l : List ℚ) : Option ℚ :=
  if l.length = 0 then none else some (l.sum / (l.length : ℚ))

/-- `statistics.median`: sort a copy; `StatisticsError` (modelled as `none`)
when `n == 0`; odd length returns `data[n // 2]`, even length returns
`(data[n // 2 - 1] + data[n // 2]) / 2`. -/
def median (l : List ℚ) : Option ℚ :=
  if l.length = 0 then none
  else if l.length % 2 = 1 then
    some ((l.insertionSort (fun a b => a ≤ b)).getD (l.length / 2) 0)
  else
    some (((l.insertionSort (fun a b => a ≤ b)).getD (l.length / 2 - 1) 0 +
      (l.insertionSort (fun a b => a ≤ b)).getD (l.length / 2) 0) / 2)

/-- The source constant `trail = 300`. -/
def trail : Nat := 300

/-- Python `s[-n:]` for `n > 0`: the last `n` elements (all of `s` when it is
shorter), i.e. drop `max(len(s) - n, 0)` elements from the front. -/
def trailWindow (n : Nat) (s : List ℚ) : List ℚ := s.drop (s.length - n)

/-- The sixteen statistics of the variant-1 report, as `(label, computation)`
pairs in the exact order of the `logging.info` calls in `analysis.py`. -/
def variant1Stats (lefts rights : List ℚ) : List (String × Option ℚ) :=
  [("min left", listMin lefts),
   ("mean left", mean lefts),
   ("median left", median lefts),
   ("max left", listMax lefts),
   ("min right", listMin rights),
   ("mean right", mean rights),
   ("median right", median rights),
   ("max right", listMax rights),
   ("trailing 300 min left", listMin (trailWindow trail lefts)),
   ("trailing 300 mean left", mean (trailWindow trail lefts)),
   ("trailing 300 median left", median (trailWindow trail lefts)),
   ("trailing 300 max left", listMax (trailWindow trail lefts)),
   ("trailing 300 min right", listMin (trailWindow trail rights)),
   ("trailing 300 mean right", mean (trailWindow trail rights)),
   ("trailing 300 median right", median (trailWindow trail rights)),
   ("trailing 300 max right", listMax (trailWindow trail rights))]

/-- Emit statistic lines strictly in order; computing a statistic of an empty
sequence aborts with `EmptySequenceError`, keeping the lines already emitted. -/
def emitAll : List (String × Option ℚ) → List (String × ℚ) × Option Err
  | [] => ([], none)
  | (lab, v) :: rest =>
    match v with
    | none => ([], some Err.emptySequenceError)
    | some q =>
      let o := emitAll rest
      ((lab, q) :: o.1, o.2)

/-- The whole variant-1 program: read and bucket all input lines, then emit the
sixteen statistics; the result is the emitted output lines in order, paired
with the error that aborted the run, if any. -/
def run (lines : List String) : List (String × ℚ) × Option Err :=
  match parseLines lines with
  | Except.error e => ([], some e)
  | Except.ok vs => emitAll (variant1Stats (leftsOf vs) (rightsOf vs))

/-- Modelled from the spec: the Diff series of variant 2, whose source file is
not under `src/` — "element-wise subtraction `Left[k] - Right[k]` for `k` in
`0 .. min(len(Left), len(Right)) - 1`; pairing stops at the shorter series'
length, silently dropping any unmatched trailing element". -/
def diffSeries (lefts rights : List ℚ) : List ℚ :=
  List.zipWith (fun a b => a - b) lefts rights

/-- Modelled from the spec: the variant-2 report "emits median of Left, median
of Right, median of the Diff series". -/
def variant2Stats (lefts rights : List ℚ) : List (String × Option ℚ) :=
  [("median left", median lefts),
   ("median right", median rights),
   ("median diff", median (diffSeries lefts rights))]

/-- Modelled from the spec: the whole variant-2 program, sharing the read loop
and bucketing of variant 1. -/
def runVariant2 (lines : List String) : List (String × ℚ) × Option Err :=
  match parseLines lines with
  | Except.error e => ([], some e)
  | Except.ok vs => emitAll (variant2Stats (leftsOf vs) (rightsOf vs))

/-- Split a list by index parity: elements at even positions and at odd
positions, each in arrival order (specification-side description of the
bucketing; compared against `readLoop` in the theorems). -/
def altSplit : List ℚ → List ℚ × List ℚ
  | [] => ([], [])
  | a :: l => ((altSplit l).2.cons a, (altSplit l).1)

deriving instance DecidableEq for Except

/-! ## Bucketing lemmas -/

theorem altSplit_length (vs : List ℚ) :
    (altSplit vs).1.length = (vs.length + 1) / 2 ∧
    (altSplit vs).2.length = vs.length / 2 := by
  induction vs with
  | nil => simp [altSplit]
  | cons a l ih =>
    obtain ⟨h1, h2⟩ := ih
    simp only [altSplit, List.length_cons]
    omega

theorem altSplit_getD (vs : List ℚ) :
    (∀ k, k < (altSplit vs).1.length →
      (altSplit vs).1.getD k 0 = vs.getD (2 * k) 0) ∧
    (∀ k, k < (altSplit vs).2.length →
      (altSplit vs).2.getD k 0 = vs.getD (2 * k + 1) 0) := by
  induction vs with
  | nil => simp [altSplit]
  | cons a l ih =>
    obtain ⟨ihe, iho⟩ := ih
    constructor
    · intro k hk
      match k with
      | 0 => simp [altSplit]
      | Nat.succ k =>
        have hk' : k < (altSplit l).2.length := by
          simp [altSplit] at hk; omega
        have h := iho k hk'
        simp only [altSplit, List.getD_cons_succ]
        rw [show 2 * (k + 1) = (2 * k + 1) + 1 by omega, List.getD_cons_succ]
        exact h
    · intro k hk
      have hk' : k < (altSplit l).1.length := by
        simp [altSplit] at hk; exact hk
      have h := ihe k hk'
      simp only [altSplit, List.getD_cons_succ]
      exact h

theorem foldl_loopStep_append (vs : List ℚ) : ∀ (i : Nat) (l r : List ℚ),
    (i % 2 = 0 → vs.foldl loopStep (i, l, r) =
      (i + vs.length, l ++ (altSplit vs).1, r ++ (altSplit vs).2)) ∧
    (i % 2 = 1 → vs.foldl loopStep (i, l, r) =
      (i + vs.length, l ++ (altSplit vs).2, r ++ (altSplit vs).1)) := by
  induction vs with
  | nil => intro i l r; simp [altSplit]
  | cons a vs ih =>
    intro i l r
    constructor
    · intro hi
      rw [List.foldl_cons]
      have hstep : loopStep (i, l, r) a = (i + 1, l ++ [a], r) := by
        simp only [loopStep]; rw [if_pos hi]
      rw [hstep, (ih (i + 1) (l ++ [a]) r).2 (by omega)]
      simp only [altSplit, List.length_cons, Prod.mk.injEq, List.append_assoc,
        List.singleton_append]
      exact ⟨by omega, trivial⟩
    · intro hi
      rw [List.foldl_cons]
      have hstep : loopStep (i, l, r) a = (i + 1, l, r ++ [a]) := by
        simp only [loopStep]; rw [if_neg (by omega)]
      rw [hstep, (ih (i + 1) l (r ++ [a])).1 (by omega)]
      simp only [altSplit, List.length_cons, Prod.mk.injEq, List.append_assoc,
        List.singleton_append]
      exact ⟨by omega, trivial⟩

theorem readLoop_eq (vs : List ℚ) :
    readLoop vs = (vs.length, (altSplit vs).1, (altSplit vs).2) := by
  have h := (foldl_loopStep_append vs 0 [] []).1 rfl
  simpa [readLoop] using h

/-! ## Claim theorems: bucketing -/

/-- C1: after every iteration of the read loop (i.e. for every prefix
`vs.take j` of the parsed values), the value at zero-based index `i` has been
appended to `lefts` if `i` is even and to `rights` if `i` is odd, with arrival
order preserved within each series: the `k`-th element of `lefts` is the input
value at index `2k`, and the `k`-th element of `rights` the one at `2k + 1`. -/
theorem readLoop_bucketing (vs : List ℚ) (j : Nat) :
    (readLoop (vs.take j)).2.1.length = ((vs.take j).length + 1) / 2 ∧
    (readLoop (vs.take j)).2.2.length = (vs.take j).length / 2 ∧
    (∀ k, k < (readLoop (vs.take j)).2.1.length →
      (readLoop (vs.take j)).2.1.getD k 0 = (vs.take j).getD (2 * k) 0) ∧
    (∀ k, k < (readLoop (vs.take j)).2.2.length →
      (readLoop (vs.take j)).2.2.getD k 0 = (vs.take j).getD (2 * k + 1) 0) := by
  rw [readLoop_eq]
  exact ⟨(altSplit_length _).1, (altSplit_length _).2,
    (altSplit_getD _).1, (altSplit_getD _).2⟩

/-- Witness for C1 at the concrete input `[1, 2, 3, 4, 5]` after 3 iterations. -/
theorem readLoop_bucketing_witness :
    (readLoop ([(1:ℚ), 2, 3, 4, 5].take 3)).2.1.getD 1 0
        = ([(1:ℚ), 2, 3, 4, 5].take 3).getD 2 0 ∧
    (readLoop ([(1:ℚ), 2, 3, 4, 5].take 3)).2.2.getD 0 0
        = ([(1:ℚ), 2, 3, 4, 5].take 3).getD 1 0 := by
  have h := readLoop_bucketing [(1:ℚ), 2, 3, 4, 5] 3
  exact ⟨h.2.2.1 1 (by decide), h.2.2.2 0 (by decide)⟩

/-- C2: after the read loop, `lefts` has `⌈n/2⌉ = (n + 1) / 2` elements and
`rights` has `⌊n/2⌋ = n / 2` elements, for an input of `n` numeric lines. -/
theorem series_lengths (vs : List ℚ) :
    (leftsOf vs).length = (vs.length + 1) / 2 ∧
    (rightsOf vs).length = vs.length / 2 := by
  unfold leftsOf rightsOf
  rw [readLoop_eq]
  exact ⟨(altSplit_length vs).1, (altSplit_length vs).2⟩

/-! ## Statistics lemmas -/

theorem foldl_min_le (t : List ℚ) :
    ∀ x : ℚ, t.foldl min x ≤ x ∧ ∀ y ∈ t, t.foldl min x ≤ y := by
  induction t with
  | nil => simp
  | cons a t ih =>
    intro x
    rw [List.foldl_cons]
    refine ⟨le_trans (ih (min x a)).1 (min_le_left x a), ?_⟩
    intro y hy
    rcases List.mem_cons.mp hy with h | h
    · rw [h]; exact le_trans (ih (min x a)).1 (min_le_right x a)
    · exact (ih (min x a)).2 y h

theorem foldl_min_mem (t : List ℚ) :
    ∀ x : ℚ, t.foldl min x = x ∨ t.foldl min x ∈ t := by
  induction t with
  | nil => intro x; left; rfl
  | cons a t ih =>
    intro x
    rw [List.foldl_cons]
    rcases ih (min x a) with h | h
    · rw [h]
      rcases le_total x a with hxa | hax
      · left; exact min_eq_left hxa
      · right; rw [min_eq_right hax]; exact List.mem_cons_self a t
    · right; exact List.mem_cons_of_mem a h

theorem foldl_max_le (t : List ℚ) :
    ∀ x : ℚ, x ≤ t.foldl max x ∧ ∀ y ∈ t, y ≤ t.foldl max x := by
  induction t with
  | nil => simp
  | cons a t ih =>
    intro x
    rw [List.foldl_cons]
    refine ⟨le_trans (le_max_left x a) (ih (max x a)).1, ?_⟩
    intro y hy
    rcases List.mem_cons.mp hy with h | h
    · rw [h]; exact le_trans (le_max_right x a) (ih (max x a)).1
    · exact (ih (max x a)).2 y h

theorem foldl_max_mem (t : List ℚ) :
    ∀ x : ℚ, t.foldl max x = x ∨ t.foldl max x ∈ t := by
  induction t with
  | nil => intro x; left; rfl
  | cons a t ih =>
    intro x
    rw [List.foldl_cons]
    rcases ih (max x a) with h | h
    · rw [h]
      rcases le_total x a with hxa | hax
      · right; rw [max_eq_right hxa]; exact List.mem_cons_self a t
      · left; exact max_eq_left hax
    · right; exact List.mem_cons_of_mem a h

theorem listMin_spec (S : List ℚ) (hS : S ≠ []) :
    ∃ a, listMin S = some a ∧ a ∈ S ∧ ∀ y ∈ S, a ≤ y := by
  match S with
  | [] => exact absurd rfl hS
  | x :: t =>
    refine ⟨t.foldl min x, rfl, ?_, ?_⟩
    · rcases foldl_min_mem t x with h | h
      · rw [h]; exact List.mem_cons_self x t
      · exact List.mem_cons_of_mem x h
    · intro y hy
      rcases List.mem_cons.mp hy with h | h
      · subst h; exact (foldl_min_le t y).1
      · exact (foldl_min_le t x).2 y h

theorem listMax_spec (S : List ℚ) (hS : S ≠ []) :
    ∃ b, listMax S = some b ∧ b ∈ S ∧ ∀ y ∈ S, y ≤ b := by
  match S with
  | [] => exact absurd rfl hS
  | x :: t =>
    refine ⟨t.foldl max x, rfl, ?_, ?_⟩
    · rcases foldl_max_mem t x with h | h
      · rw [h]; exact List.mem_cons_self x t
      · exact List.mem_cons_of_mem x h
    · intro y hy
      rcases List.mem_cons.mp hy with h | h
      · subst h; exact (foldl_max_le t y).1
      · exact (foldl_max_le t x).2 y h

theorem mean_bounds (S : List ℚ) (hS : S ≠ []) (a b : ℚ)
    (ha : ∀ y ∈ S, a ≤ y) (hb : ∀ y ∈ S, y ≤ b) :
    mean S = some (S.sum / (S.length : ℚ)) ∧
    a ≤ S.sum / (S.length : ℚ) ∧ S.sum / (S.length : ℚ) ≤ b := by
  have hn : S.length ≠ 0 := fun h => hS (List.length_eq_zero.mp h)
  have hpos : (0 : ℚ) < (S.length : ℚ) := by
    exact_mod_cast Nat.pos_of_ne_zero hn
  refine ⟨by unfold mean; rw [if_neg hn], ?_, ?_⟩
  · rw [le_div_iff₀ hpos, mul_comm]
    have h := List.card_nsmul_le_sum S a ha
    rwa [nsmul_eq_mul] at h
  · rw [div_le_iff₀ hpos, mul_comm]
    have h := List.sum_le_card_nsmul S b hb
    rwa [nsmul_eq_mul] at h

theorem median_mem_or_avg (S : List ℚ) (hS : S ≠ []) :
    ∃ m, median S = some m ∧
      (m ∈ S ∨ ∃ u ∈ S, ∃ v ∈ S, m = (u + v) / 2) := by
  have hn : S.length ≠ 0 := fun h => hS (List.length_eq_zero.mp h)
  have hlen : (S.insertionSort (fun a b => a ≤ b)).length = S.length :=
    List.length_insertionSort _ S
  have hmem : ∀ k, k < S.length →
      (S.insertionSort (fun a b => a ≤ b)).getD k 0 ∈ S := by
    intro k hk
    have hk' : k < (S.insertionSort (fun a b => a ≤ b)).length := by omega
    rw [List.getD_eq_getElem _ _ hk']
    exact (List.perm_insertionSort _ S).mem_iff.mp (List.getElem_mem hk')
  by_cases hpar : S.length % 2 = 1
  · refine ⟨(S.insertionSort (fun a b => a ≤ b)).getD (S.length / 2) 0, ?_, ?_⟩
    · unfold median; rw [if_neg hn, if_pos hpar]
    · exact Or.inl (hmem _ (by omega))
  · refine ⟨((S.insertionSort (fun a b => a ≤ b)).getD (S.length / 2 - 1) 0 +
      (S.insertionSort (fun a b => a ≤ b)).getD (S.length / 2) 0) / 2, ?_, ?_⟩
    · unfold median; rw [if_neg hn, if_neg hpar]
    · exact Or.inr ⟨_, hmem _ (by omega), _, hmem _ (by omega), rfl⟩

/-! ## Claim theorems: statistics -/

/-- C3: for every non-empty `S`, the program's `median S` equals the value
obtained from any sorted rearrangement `d` of `S` by taking the middle element
when the length is odd, or the average of the two middle elements when the
length is even. -/
theorem median_eq_sorted_middle (S d : List ℚ) (hne : S ≠ [])
    (hp : S.Perm d) (hs : List.Sorted (fun a b : ℚ => a ≤ b) d) :
    median S = some (if S.length % 2 = 1 then d.getD (S.length / 2) 0
      else (d.getD (S.length / 2 - 1) 0 + d.getD (S.length / 2) 0) / 2) := by
  have hn : S.length ≠ 0 := fun h => hne (List.length_eq_zero.mp h)
  have hd : S.insertionSort (fun a b => a ≤ b) = d := by
    apply List.eq_of_perm_of_sorted (r := fun a b : ℚ => a ≤ b)
      ((List.perm_insertionSort _ S).trans hp)
    · exact List.sorted_insertionSort _ S
    · exact hs
  unfold median
  rw [hd, if_neg hn]
  by_cases hpar : S.length % 2 = 1
  · rw [if_pos hpar, if_pos hpar]
  · rw [if_neg hpar, if_neg hpar]

/-- Witness for C3: the median of `[3, 1, 2]` is the middle element `2` of its
sorted rearrangement `[1, 2, 3]`. -/
theorem median_eq_sorted_middle_witness : median [(3:ℚ), 1, 2] = some 2 := by
  have h := median_eq_sorted_middle [(3:ℚ), 1, 2] [(1:ℚ), 2, 3]
    (by decide) (by decide) (by decide)
  rw [h]; decide

/-- C8: for every non-empty `S`, the computed statistics satisfy
`min S ≤ median S ≤ max S` and `min S ≤ mean S ≤ max S` (and all four are
defined). -/
theorem stats_bounds (S : List ℚ) (h : S ≠ []) :
    (listMin S).isSome = true ∧ (mean S).isSome = true ∧
    (median S).isSome = true ∧ (listMax S).isSome = true ∧
    (listMin S).getD 0 ≤ (median S).getD 0 ∧
    (median S).getD 0 ≤ (listMax S).getD 0 ∧
    (listMin S).getD 0 ≤ (mean S).getD 0 ∧
    (mean S).getD 0 ≤ (listMax S).getD 0 := by
  obtain ⟨a, hmin, hamem, hale⟩ := listMin_spec S h
  obtain ⟨b, hmax, hbmem, hleb⟩ := listMax_spec S h
  obtain ⟨hmean, hma, hmb⟩ := mean_bounds S h a b hale hleb
  obtain ⟨m, hmed, hm⟩ := median_mem_or_avg S h
  have hmbounds : a ≤ m ∧ m ≤ b := by
    rcases hm with hmem | ⟨u, hu, v, hv, huv⟩
    · exact ⟨hale m hmem, hleb m hmem⟩
    · subst huv
      constructor
      · have h1 := hale u hu
        have h2 := hale v hv
        linarith
      · have h1 := hleb u hu
        have h2 := hleb v hv
        linarith
  rw [hmin, hmax, hmean, hmed]
  exact ⟨rfl, rfl, rfl, rfl, hmbounds.1, hmbounds.2, hma, hmb⟩

/-- Witness for C8 at the concrete sequence `[3, 1, 2]`. -/
theorem stats_bounds_witness :
    (listMin [(3:ℚ), 1, 2]).isSome = true ∧ (mean [(3:ℚ), 1, 2]).isSome = true ∧
    (median [(3:ℚ), 1, 2]).isSome = true ∧ (listMax [(3:ℚ), 1, 2]).isSome = true ∧
    (listMin [(3:ℚ), 1, 2]).getD 0 ≤ (median [(3:ℚ), 1, 2]).getD 0 ∧
    (median [(3:ℚ), 1, 2]).getD 0 ≤ (listMax [(3:ℚ), 1, 2]).getD 0 ∧
    (listMin [(3:ℚ), 1, 2]).getD 0 ≤ (mean [(3:ℚ), 1, 2]).getD 0 ∧
    (mean [(3:ℚ), 1, 2]).getD 0 ≤ (listMax [(3:ℚ), 1, 2]).getD 0 :=
  stats_bounds [(3:ℚ), 1, 2] (by decide)

/-! ## Report and output lemmas -/

theorem listMin_isSome (S : List ℚ) (h : S ≠ []) : (listMin S).isSome = true := by
  obtain ⟨a, ha, _, _⟩ := listMin_spec S h
  rw [ha]; rfl

theorem listMax_isSome (S : List ℚ) (h : S ≠ []) : (listMax S).isSome = true := by
  obtain ⟨b, hb, _, _⟩ := listMax_spec S h
  rw [hb]; rfl

theorem mean_isSome (S : List ℚ) (h : S ≠ []) : (mean S).isSome = true := by
  unfold mean
  rw [if_neg (fun hn => h (List.length_eq_zero.mp hn))]
  rfl

theorem median_isSome (S : List ℚ) (h : S ≠ []) : (median S).isSome = true := by
  obtain ⟨m, hm, _⟩ := median_mem_or_avg S h
  rw [hm]; rfl

theorem trailWindow_ne_nil (S : List ℚ) (h : S ≠ []) : trailWindow trail S ≠ [] := by
  have hpos : 0 < S.length := List.length_pos.mpr h
  have hlen : (trailWindow trail S).length = S.length - (S.length - trail) := by
    unfold trailWindow; exact List.length_drop _ S
  intro hnil
  rw [hnil] at hlen
  simp only [List.length_nil] at hlen
  unfold trail at hlen
  omega

theorem emitAll_cons_some (lab : String) (q : ℚ) (L : List (String × Option ℚ)) :
    emitAll ((lab, some q) :: L) = ((lab, q) :: (emitAll L).1, (emitAll L).2) := rfl

theorem emitAll_cons_none (lab : String) (L : List (String × Option ℚ)) :
    emitAll ((lab, none) :: L) = ([], some Err.emptySequenceError) := rfl

theorem emitAll_ne_parseError (L : List (String × Option ℚ)) :
    (emitAll L).2 ≠ some Err.parseError := by
  induction L with
  | nil => simp [emitAll]
  | cons p L ih =>
    obtain ⟨lab, v⟩ := p
    cases v with
    | none => rw [emitAll_cons_none]; simp
    | some q => rw [emitAll_cons_some]; exact ih

theorem emitAll_all_some (L : List (String × Option ℚ))
    (h : ∀ p ∈ L, p.2.isSome = true) :
    emitAll L = (L.map (fun p => (p.1, p.2.getD 0)), none) := by
  induction L with
  | nil => rfl
  | cons p L ih =>
    obtain ⟨lab, v⟩ := p
    have hv := h (lab, v) (List.mem_cons_self _ _)
    cases v with
    | none => simp at hv
    | some q =>
      rw [emitAll_cons_some, ih (fun p hp => h p (List.mem_cons_of_mem _ hp))]
      rfl

theorem leftsOf_length (vs : List ℚ) :
    (leftsOf vs).length = (vs.length + 1) / 2 := by
  unfold leftsOf; rw [readLoop_eq]; exact (altSplit_length vs).1

theorem rightsOf_length (vs : List ℚ) :
    (rightsOf vs).length = vs.length / 2 := by
  unfold rightsOf; rw [readLoop_eq]; exact (altSplit_length vs).2

theorem leftsOf_ne_nil (vs : List ℚ) (h : 1 ≤ vs.length) : leftsOf vs ≠ [] := by
  intro hnil
  have h1 := leftsOf_length vs
  rw [hnil] at h1
  simp only [List.length_nil] at h1
  omega

theorem rightsOf_ne_nil (vs : List ℚ) (h : 2 ≤ vs.length) : rightsOf vs ≠ [] := by
  intro hnil
  have h1 := rightsOf_length vs
  rw [hnil] at h1
  simp only [List.length_nil] at h1
  omega

/-! ## Claim theorems: windows, reports and error handling -/

/-- C4: the trailing window is the whole series when its length is at most
300, and otherwise the last 300 elements in their original order (so the
series is the untouched front part followed by the window). -/
theorem trailWindow_spec (S : List ℚ) :
    (S.length ≤ 300 → trailWindow trail S = S) ∧
    (300 < S.length → (trailWindow trail S).length = 300 ∧
      S.take (S.length - 300) ++ trailWindow trail S = S) := by
  constructor
  · intro h
    unfold trailWindow trail
    rw [show S.length - 300 = 0 by omega]
    exact List.drop_zero S
  · intro h
    refine ⟨?_, ?_⟩
    · unfold trailWindow trail
      rw [List.length_drop]
      omega
    · unfold trailWindow trail
      exact List.take_append_drop _ S

/-- Witness for C4: a short series is its own trailing window, and a series of
301 elements has a trailing window of exactly 300 elements. -/
theorem trailWindow_spec_witness :
    trailWindow trail [(1:ℚ), 2, 3] = [(1:ℚ), 2, 3] ∧
    (trailWindow trail (List.replicate 301 (0:ℚ))).length = 300 :=
  ⟨(trailWindow_spec [(1:ℚ), 2, 3]).1 (by decide),
   ((trailWindow_spec (List.replicate 301 (0:ℚ))).2
     (by rw [List.length_replicate]; omega)).1⟩

/-- C6: on the empty input the program fails with `EmptySequenceError` (at
`min(lefts)`) before emitting any statistic line. -/
theorem run_empty_input : run [] = ([], some Err.emptySequenceError) := rfl

/-- C5 is refuted on the single-line input `["1"]`: the run aborts with
`EmptySequenceError` (at `min(rights)`), yet the four Left statistics have
already been emitted — the abort does produce partial output. -/
theorem run_single_line_partial_output :
    (run ["1"]).2 = some Err.emptySequenceError ∧
    (run ["1"]).1.map Prod.fst =
      ["min left", "mean left", "median left", "max left"] ∧
    (run ["1"]).1 ≠ [] := by
  exact ⟨by decide, by decide, by decide⟩

/-- C5 amended: a `ParseError` abort emits no output at all, and the
`EmptySequenceError` abort on the empty input emits no output; but on an input
whose values are a single number (Left non-empty, Right empty) the four Left
statistics are emitted before the `EmptySequenceError` abort. -/
theorem abort_partial_output (lines : List String) :
    ((run lines).2 = some Err.parseError → (run lines).1 = []) ∧
    (lines = [] →
      (run lines).1 = [] ∧ (run lines).2 = some Err.emptySequenceError) ∧
    (∀ v : ℚ, parseLines lines = Except.ok [v] →
      (run lines).1.map Prod.fst =
        ["min left", "mean left", "median left", "max left"] ∧
      (run lines).2 = some Err.emptySequenceError) := by
  refine ⟨?_, ?_, ?_⟩
  · intro h
    cases hp : parseLines lines with
    | error e => unfold run; rw [hp]
    | ok vs =>
      exfalso
      apply emitAll_ne_parseError (variant1Stats (leftsOf vs) (rightsOf vs))
      rw [← h]
      unfold run; rw [hp]
  · intro h
    subst h
    exact ⟨rfl, rfl⟩
  · intro v h
    have hrun : run lines = emitAll (variant1Stats (leftsOf [v]) (rightsOf [v])) := by
      unfold run; rw [h]
    rw [hrun]
    exact ⟨rfl, rfl⟩

/-- Witness for the amended C5: a malformed line aborts with no output, and
the single-line input `["1"]` emits exactly the four Left statistic labels
before its abort. -/
theorem abort_partial_output_witness :
    (run ["x"]).1 = [] ∧
    (run ["1"]).1.map Prod.fst =
      ["min left", "mean left", "median left", "max left"] ∧
    (run ["1"]).2 = some Err.emptySequenceError := by
  obtain ⟨v, hv⟩ : ∃ v : ℚ, parseLines ["1"] = Except.ok [v] := ⟨_, rfl⟩
  exact ⟨(abort_partial_output ["x"]).1 (by decide),
    ((abort_partial_output ["1"]).2.2 v hv).1,
    ((abort_partial_output ["1"]).2.2 v hv).2⟩

set_option maxRecDepth 40000 in
set_option maxHeartbeats 2000000 in
/-- C7: for every input whose parsed values give non-empty Left and Right
series (at least two values), variant 1 completes without error and emits
exactly sixteen statistics, in this order: min/mean/median/max of Left, the
same four of Right, then the same four of the trailing-300 window of Left and
of Right. -/
theorem variant1_report (lines : List String) (vs : List ℚ)
    (hp : parseLines lines = Except.ok vs) (h2 : 2 ≤ vs.length) :
    (run lines).2 = none ∧
    (run lines).1 =
      [("min left", (listMin (leftsOf vs)).getD 0),
       ("mean left", (mean (leftsOf vs)).getD 0),
       ("median left", (median (leftsOf vs)).getD 0),
       ("max left", (listMax (leftsOf vs)).getD 0),
       ("min right", (listMin (rightsOf vs)).getD 0),
       ("mean right", (mean (rightsOf vs)).getD 0),
       ("median right", (median (rightsOf vs)).getD 0),
       ("max right", (listMax (rightsOf vs)).getD 0),
       ("trailing 300 min left", (listMin (trailWindow trail (leftsOf vs))).getD 0),
       ("trailing 300 mean left", (mean (trailWindow trail (leftsOf vs))).getD 0),
       ("trailing 300 median left", (median (trailWindow trail (leftsOf vs))).getD 0),
       ("trailing 300 max left", (listMax (trailWindow trail (leftsOf vs))).getD 0),
       ("trailing 300 min right", (listMin (trailWindow trail (rightsOf vs))).getD 0),
       ("trailing 300 mean right", (mean (trailWindow trail (rightsOf vs))).getD 0),
       ("trailing 300 median right", (median (trailWindow trail (rightsOf vs))).getD 0),
       ("trailing 300 max right", (listMax (trailWindow trail (rightsOf vs))).getD 0)] := by
  have hL : leftsOf vs ≠ [] := leftsOf_ne_nil vs (by omega)
  have hR : rightsOf vs ≠ [] := rightsOf_ne_nil vs h2
  have hLt : trailWindow trail (leftsOf vs) ≠ [] := trailWindow_ne_nil _ hL
  have hRt : trailWindow trail (rightsOf vs) ≠ [] := trailWindow_ne_nil _ hR
  have hstats : ∀ p ∈ variant1Stats (leftsOf vs) (rightsOf vs),
      p.2.isSome = true := by
    intro p hp2
    simp only [variant1Stats, List.mem_cons, List.not_mem_nil, or_false] at hp2
    rcases hp2 with h|h|h|h|h|h|h|h|h|h|h|h|h|h|h|h <;> rw [h]
    · exact listMin_isSome _ hL
    · exact mean_isSome _ hL
    · exact median_isSome _ hL
    · exact listMax_isSome _ hL
    · exact listMin_isSome _ hR
    · exact mean_isSome _ hR
    · exact median_isSome _ hR
    · exact listMax_isSome _ hR
    · exact listMin_isSome _ hLt
    · exact mean_isSome _ hLt
    · exact median_isSome _ hLt
    · exact listMax_isSome _ hLt
    · exact listMin_isSome _ hRt
    · exact mean_isSome _ hRt
    · exact median_isSome _ hRt
    · exact listMax_isSome _ hRt
  have hrun : run lines = emitAll (variant1Stats (leftsOf vs) (rightsOf vs)) := by
    unfold run; rw [hp]
  rw [hrun, emitAll_all_some _ hstats]
  exact ⟨rfl, rfl⟩

set_option maxRecDepth 40000 in
set_option maxHeartbeats 2000000 in
/-- Witness for C7 at the concrete input `["1", "2"]`: the sixteen labels in
order, with no error. -/
theorem variant1_report_witness :
    (run ["1", "2"]).2 = none ∧
    (run ["1", "2"]).1.map Prod.fst =
      ["min left", "mean left", "median left", "max left",
       "min right", "mean right", "median right", "max right",
       "trailing 300 min left", "trailing 300 mean left",
       "trailing 300 median left", "trailing 300 max left",
       "trailing 300 min right", "trailing 300 mean right",
       "trailing 300 median right", "trailing 300 max right"] := by
  obtain ⟨v, w, hvw⟩ : ∃ v w : ℚ, parseLines ["1", "2"] = Except.ok [v, w] :=
    ⟨_, _, rfl⟩
  have h := variant1_report ["1", "2"] [v, w] hvw (by simp)
  exact ⟨h.1, by rw [h.2]; rfl⟩

/-- C9 (modelled from the spec, variant 2's source being absent from `src/`):
the Diff series has length `min (len Left) (len Right)` and
`Diff[k] = Left[k] - Right[k]` for every valid `k` — the unmatched trailing
element of the longer series is silently dropped — and the variant-2 report
emits the median of Left, of Right and of Diff, in that order. -/
theorem variant2_diff_report (lines : List String) (vs : List ℚ)
    (hp : parseLines lines = Except.ok vs) (h2 : 2 ≤ vs.length) :
    (diffSeries (leftsOf vs) (rightsOf vs)).length =
      min (leftsOf vs).length (rightsOf vs).length ∧
    (∀ k, k < (diffSeries (leftsOf vs) (rightsOf vs)).length →
      (diffSeries (leftsOf vs) (rightsOf vs)).getD k 0 =
        (leftsOf vs).getD k 0 - (rightsOf vs).getD k 0) ∧
    (runVariant2 lines).2 = none ∧
    (runVariant2 lines).1 =
      [("median left", (median (leftsOf vs)).getD 0),
       ("median right", (median (rightsOf vs)).getD 0),
       ("median diff", (median (diffSeries (leftsOf vs) (rightsOf vs))).getD 0)] := by
  have hL : leftsOf vs ≠ [] := leftsOf_ne_nil vs (by omega)
  have hR : rightsOf vs ≠ [] := rightsOf_ne_nil vs h2
  have hlen : (diffSeries (leftsOf vs) (rightsOf vs)).length =
      min (leftsOf vs).length (rightsOf vs).length := by
    unfold diffSeries
    exact List.length_zipWith _ _ _
  have hD : diffSeries (leftsOf vs) (rightsOf vs) ≠ [] := by
    intro hnil
    rw [hnil] at hlen
    simp only [List.length_nil] at hlen
    have hl1 : 0 < (leftsOf vs).length := List.length_pos.mpr hL
    have hr1 : 0 < (rightsOf vs).length := List.length_pos.mpr hR
    omega
  have hget : ∀ k, k < (diffSeries (leftsOf vs) (rightsOf vs)).length →
      (diffSeries (leftsOf vs) (rightsOf vs)).getD k 0 =
        (leftsOf vs).getD k 0 - (rightsOf vs).getD k 0 := by
    intro k hk
    have hk1 : k < (leftsOf vs).length := by rw [hlen] at hk; omega
    have hk2 : k < (rightsOf vs).length := by rw [hlen] at hk; omega
    rw [List.getD_eq_getElem _ _ hk, List.getD_eq_getElem _ _ hk1,
      List.getD_eq_getElem _ _ hk2]
    exact List.getElem_zipWith
  have hstats : ∀ p ∈ variant2Stats (leftsOf vs) (rightsOf vs),
      p.2.isSome = true := by
    intro p hp2
    simp only [variant2Stats, List.mem_cons, List.not_mem_nil, or_false] at hp2
    rcases hp2 with h|h|h <;> rw [h]
    · exact median_isSome _ hL
    · exact median_isSome _ hR
    · exact median_isSome _ hD
  have hrun : runVariant2 lines =
      emitAll (variant2Stats (leftsOf vs) (rightsOf vs)) := by
    unfold runVariant2; rw [hp]
  rw [hrun, emitAll_all_some _ hstats]
  exact ⟨hlen, hget, rfl, rfl⟩

/-- Witness for C9 at the spec's own example input `10,1,20,2,30,3`. -/
theorem variant2_diff_report_witness :
    (runVariant2 ["10", "1", "20", "2", "30", "3"]).2 = none ∧
    (runVariant2 ["10", "1", "20", "2", "30", "3"]).1.map Prod.fst =
      ["median left", "median right", "median diff"] := by
  obtain ⟨a, b, c, d, e, f, h⟩ : ∃ a b c d e f : ℚ,
      parseLines ["10", "1", "20", "2", "30", "3"] =
        Except.ok [a, b, c, d, e, f] := ⟨_, _, _, _, _, _, rfl⟩
  have hth := variant2_diff_report ["10", "1", "20", "2", "30", "3"]
    [a, b, c, d, e, f] h (by simp)
  exact ⟨hth.2.2.1, by rw [hth.2.2.2]; rfl⟩

/-- C10: the input lines `inf`, `nan`, `Infinity` and `1_0` are not standard
decimal floating-point literals, yet Python `float` accepts all of them (no
`ParseError`); for the finite one, `1_0`, the parsed value 10 enters the Left
series and its statistics, and the run completes normally. -/
theorem nonstandard_literals_accepted :
    standardDecimalAccepts "inf" = false ∧
    standardDecimalAccepts "nan" = false ∧
    standardDecimalAccepts "Infinity" = false ∧
    standardDecimalAccepts "1_0" = false ∧
    pyFloatParse "inf" = some PyVal.inf ∧
    pyFloatParse "nan" = some PyVal.nan ∧
    pyFloatParse "Infinity" = some PyVal.inf ∧
    pyFloatParse "1_0" = some (PyVal.fin 10) ∧
    parseLine "1_0" = some 10 ∧
    parseLines ["1_0", "2_0"] = Except.ok [10, 20] ∧
    leftsOf [10, 20] = [10] ∧ rightsOf [10, 20] = [20] ∧
    listMin (leftsOf [10, 20]) = some 10 ∧
    (run ["1_0", "2_0"]).2 = none ∧
    (run ["1_0", "2_0"]).1.map Prod.fst =
      ["min left", "mean left", "median left", "max left",
       "min right", "mean right", "median right", "max right",
       "trailing 300 min left", "trailing 300 mean left",
       "trailing 300 median left", "trailing 300 max left",
       "trailing 300 min right", "trailing 300 mean right",
       "trailing 300 median right", "trailing 300 max right"] := by
  refine ⟨by decide, by decide, by decide, by decide, by decide, by decide,
    by decide, ?_, ?_, ?_, by decide, by decide, by decide, by decide, by decide⟩
  · have h : pyFloatParse "1_0" = some (PyVal.fin ((natOfDigits [1, 0] : ℚ) +
        (natOfDigits ([] : List Nat) : ℚ) /
          (10 : ℚ) ^ (([] : List Nat)).length)) := rfl
    rw [h]
    norm_num [natOfDigits]
  · have h : parseLine "1_0" = some ((natOfDigits [1, 0] : ℚ) +
        (natOfDigits ([] : List Nat) : ℚ) /
          (10 : ℚ) ^ (([] : List Nat)).length) := rfl
    rw [h]
    norm_num [natOfDigits]
  · have h : parseLines ["1_0", "2_0"] = Except.ok
        [(natOfDigits [1, 0] : ℚ) + (natOfDigits ([] : List Nat) : ℚ) /
           (10 : ℚ) ^ (([] : List Nat)).length,
         (natOfDigits [2, 0] : ℚ) + (natOfDigits ([] : List Nat) : ℚ) /
           (10 : ℚ) ^ (([] : List Nat)).length] := rfl
    rw [h]
    norm_num [natOfDigits]
